import Mathlib

/-!
# Verification of the openaiproxy request pipeline

Shallow embedding of the Node.js proxy sources:

* `src/nodeproxy/src/rateLimiter.js` — token-bucket rate limiter (`RateLimiter`);
* `src/openai-proxy/src/cache.js` — TTL + LRU response cache (`TTLCache`);
* `src/openai-proxy/src/server.js` (lines 143-234) — the cache-relevant part of
  the forwarding pipeline (`handleProxyRequest`);
* the utilities module (`parseBoolean`, `isLikelyStream`, `hashBody`, ...).

Modelling conventions:

* JS numbers used for token arithmetic are modelled as rationals (`ℚ`);
  millisecond timestamps as integers (`Int` for the cache, `ℚ` for the
  limiter, where they are divided by 1000).
* A JS `Map` is modelled as an insertion-ordered association list with
  unique keys; `Map.get` is `lookupKey`, `Map.set` is `setAssoc`.
* The cache keeps a `Map` from keys to nodes plus a doubly linked recency
  list over exactly the same nodes; the two are mutated in lock step in
  every operation (`set`, `get`, `del`, `clear` all pair `map.set/delete`
  with `_attach/_detach`), so the pair is modelled as a single
  association list `entries` ordered MRU-first.  `_attach` is `List.cons`,
  `_detach` is dropping the node, `_moveToFront` is drop-then-cons.
* The external collaborators `crypto.createHash('sha256')` and `JSON.parse`
  (Node standard library, not part of this repository) are passed in as
  function parameters `sha : String → String` and
  `jsonParse : String → Option JVal`.
* `Date.now()` is passed in as an explicit `now` parameter at each call
  that reads the clock.
-/

set_option linter.unusedVariables false

/-! ## Association-list primitives (JS `Map` semantics) -/

/-- `Map.get k`: first binding of `k`, if any. -/
def lookupKey {β : Type _} (k : String) : List (String × β) → Option β
  | [] => none
  | (k', v) :: rest => if k' = k then some v else lookupKey k rest

/-- `Map.set k v`: replace the binding in place if `k` is present
(JS `Map` keeps insertion order on overwrite), else append. -/
def setAssoc {β : Type _} (l : List (String × β)) (k : String) (v : β) : List (String × β) :=
  match l with
  | [] => [(k, v)]
  | (k', v') :: rest => if k' = k then (k, v) :: rest else (k', v') :: setAssoc rest k v

/-- Drop every binding of `k` (on unique-key lists: `Map.delete` / `_detach`). -/
def removeKey {β : Type _} (k : String) (l : List (String × β)) : List (String × β) :=
  l.filter (fun e => e.1 != k)

/-! ## JSON values and utilities (`src/openai-proxy/src/utils.js`) -/

/-- The result of `JSON.parse` on a request body. -/
inductive JVal : Type where
  | null : JVal
  | bool (b : Bool) : JVal
  | num (n : Int) : JVal
  | str (s : String) : JVal
  | arr (elems : List JVal) : JVal
  | obj (fields : List (String × JVal)) : JVal

/-- `isLikelyStream(bodyObj)`: true iff the parsed body is an object whose
`stream` property is strictly `=== true`. -/
def isLikelyStream : JVal → Bool
  | .obj fields =>
    match lookupKey "stream" fields with
    | some (.bool true) => true
    | _ => false
  | _ => false

/-- Modelled from the spec: JavaScript truthiness of a JSON value, used to
state the spec's phrase "a truthy streaming indicator".  (`false`, `0`, `""`
and `null` are falsy; every object, array, non-zero number and non-empty
string is truthy.) -/
def jsTruthy : JVal → Bool
  | .null => false
  | .bool b => b
  | .num n => n != 0
  | .str s => s != ""
  | .arr _ => true
  | .obj _ => true

/-- JS `String.prototype.toLowerCase` (per-character lowering). -/
def jsToLower (s : String) : String :=
  ⟨s.data.map Char.toLower⟩

/-- `parseBoolean(s, fallback)` from utils: `undefined` maps to the fallback,
otherwise membership of the lowercased string in `['1','true','yes','on']`. -/
def parseBoolean (s : Option String) (fallback : Bool) : Bool :=
  match s with
  | none => fallback
  | some s => decide (jsToLower s ∈ ["1", "true", "yes", "on"])

/-- JS `String.prototype.includes`: substring containment. -/
def strIncludes (s sub : String) : Bool :=
  (List.range (s.data.length + 1)).any (fun i => sub.data.isPrefixOf (s.data.drop i))

/-- `hashBody(body)`: full hex SHA-256 digest of the body
(`sha` is the external hashing primitive). -/
def hashBody (sha : String → String) (body : String) : String :=
  sha body

/-- `hashString(s)` from server.js: hex SHA-256 digest truncated to 16 chars. -/
def hashString (sha : String → String) (s : String) : String :=
  (sha s).take 16

/-! ## TTL + LRU cache (`src/openai-proxy/src/cache.js`) -/

/-- One cache node: `{ value, expiresAt }` (the `k`/`prev`/`next` fields are
represented by the node's position in the `entries` list). -/
structure CacheEntry (α : Type) where
  value : α
  expiresAt : Int
deriving DecidableEq

/-- The `TTLCache` state: configuration, the merged map + MRU-first recency
list, and the stats counters. -/
structure TTLCache (α : Type) where
  ttlMs : Int
  maxEntries : Nat
  entries : List (String × CacheEntry α)
  hits : Nat
  misses : Nat
  stores : Nat
  evictions : Nat
deriving DecidableEq

/-- `new TTLCache({ttlMs, maxEntries})`. -/
def TTLCache.empty (α : Type) (maxEntries : Nat) (ttlMs : Int) : TTLCache α :=
  { ttlMs := ttlMs, maxEntries := maxEntries, entries := [],
    hits := 0, misses := 0, stores := 0, evictions := 0 }

/-- `_evictIfNeeded`: the source loops `while (map.size > maxEntries && tail)`,
detaching the tail node, deleting it from the map and bumping `evictions`.
On the MRU-first `entries` list this removes elements from the end until at
most `maxEntries` remain, i.e. truncates to the first `maxEntries` entries,
counting the removed ones. -/
def TTLCache.evictIfNeeded {α : Type} (c : TTLCache α) : TTLCache α :=
  { c with entries := c.entries.take c.maxEntries,
           evictions := c.evictions + (c.entries.length - c.maxEntries) }

/-- `get(k)` at clock reading `now`: miss on an unknown key; an expired node
(`expiresAt <= now`) is detached, deleted and counted as a miss; a live hit
is moved to the front of the recency list. Returns the JS return value
together with the updated cache. -/
def TTLCache.get {α : Type} (c : TTLCache α) (k : String) (now : Int) :
    Option α × TTLCache α :=
  match lookupKey k c.entries with
  | none => (none, { c with misses := c.misses + 1 })
  | some e =>
    if e.expiresAt ≤ now then
      (none, { c with entries := removeKey k c.entries, misses := c.misses + 1 })
    else
      (some e.value,
       { c with entries := (k, e) :: removeKey k c.entries, hits := c.hits + 1 })

/-- `set(k, value, ttlOverrideMs?)` at clock reading `now`: an existing node
is overwritten (value and expiry reset) and moved to front; a new node is
attached at the front followed by `_evictIfNeeded`. `stores` bumps in both
cases. -/
def TTLCache.set {α : Type} (c : TTLCache α) (k : String) (v : α)
    (ttlOverrideMs : Option Int) (now : Int) : TTLCache α :=
  let ttl := ttlOverrideMs.getD c.ttlMs
  let c' : TTLCache α :=
    match lookupKey k c.entries with
    | some _ =>
      { c with entries := (k, ⟨v, now + ttl⟩) :: removeKey k c.entries }
    | none =>
      TTLCache.evictIfNeeded { c with entries := (k, ⟨v, now + ttl⟩) :: c.entries }
  { c' with stores := c'.stores + 1 }

/-- `del(k)`: detach and delete, reporting whether a node existed. -/
def TTLCache.del {α : Type} (c : TTLCache α) (k : String) : Bool × TTLCache α :=
  match lookupKey k c.entries with
  | none => (false, c)
  | some _ => (true, { c with entries := removeKey k c.entries })

/-- `clear()`: structural reset of map and recency list (stats are kept). -/
def TTLCache.clear {α : Type} (c : TTLCache α) : TTLCache α :=
  { c with entries := [] }

/-- Modelled from the spec (§3 data model): a key is *logically present* iff
it is stored and not past its expiry; used to state claims about cache
contents. -/
def TTLCache.logicalLookup {α : Type} (c : TTLCache α) (k : String) (t : Int) : Option α :=
  match lookupKey k c.entries with
  | some e => if e.expiresAt ≤ t then none else some e.value
  | none => none

/-! ## Token-bucket rate limiter (`src/nodeproxy/src/rateLimiter.js`) -/

/-- One bucket: `{ tokens, last }`. -/
structure Bucket where
  tokens : ℚ
  last : ℚ
deriving DecidableEq

/-- `RateLimiter` state: configuration, the per-client bucket map and the
`limited` rejection counter. -/
structure RateLimiter where
  max : ℚ
  refill : ℚ
  buckets : List (String × Bucket)
  limited : Nat
deriving DecidableEq

/-- `new RateLimiter({maxTokens, refillPerSec})`. -/
def RateLimiter.mk0 (maxTokens refillPerSec : ℚ) : RateLimiter :=
  { max := maxTokens, refill := refillPerSec, buckets := [], limited := 0 }

/-- `_refill(bucket, now)`:
`tokens = min(max, tokens + ((now - last) / 1000) * refill); last = now`. -/
def RateLimiter.refillBucket (max refill : ℚ) (b : Bucket) (now : ℚ) : Bucket :=
  { tokens := min max (b.tokens + (now - b.last) / 1000 * refill), last := now }

/-- `tryRemoveToken(id, n)` at clock reading `now`: lazily create the bucket
with `tokens = max`, refill it, then consume `n` tokens if available,
else bump `limited`. Returns `{ ok, remaining }` (with
`remaining = Math.floor(tokens)`) and the updated limiter. -/
def RateLimiter.tryRemoveToken (rl : RateLimiter) (id : String) (n : ℚ) (now : ℚ) :
    (Bool × Int) × RateLimiter :=
  let b0 : Bucket :=
    match lookupKey id rl.buckets with
    | some b => b
    | none => { tokens := rl.max, last := now }
  let b1 := RateLimiter.refillBucket rl.max rl.refill b0 now
  if n ≤ b1.tokens then
    ((true, Rat.floor (b1.tokens - n)),
     { rl with buckets := setAssoc rl.buckets id { b1 with tokens := b1.tokens - n } })
  else
    ((false, Rat.floor b1.tokens),
     { rl with buckets := setAssoc rl.buckets id b1, limited := rl.limited + 1 })

/-- Modelled from the spec (§4.1): the refilled token count
`min(max, tokens + elapsedSeconds * refillRate)` of the (lazily created)
bucket for `id`, before any consumption. -/
def RateLimiter.specRefilled (rl : RateLimiter) (id : String) (now : ℚ) : ℚ :=
  let b0 : Bucket :=
    match lookupKey id rl.buckets with
    | some b => b
    | none => { tokens := rl.max, last := now }
  min rl.max (b0.tokens + (now - b0.last) / 1000 * rl.refill)

/-! ## Cache key derivation (`server.js` lines 152-155, `utils.js`) -/

/-- The `authHash` component: hash of the inbound credential, else of the
configured upstream key, else the sentinel `auth:none` (`server.js` 153). -/
def authFingerprintPart (sha : String → String) (upstreamApiKey authHeader : String) : String :=
  if authHeader != "" then "auth:" ++ hashString sha authHeader
  else if upstreamApiKey != "" then "auth:" ++ hashString sha upstreamApiKey
  else "auth:none"

/-- The `bodyKey` component: empty for `GET`, else a colon followed by the
content hash of the raw body (`server.js` 154). -/
def bodyKeyPart (sha : String → String) (method rawBody : String) : String :=
  if method = "GET" then "" else ":" ++ hashBody sha rawBody

/-- `cacheKey` (`server.js` 155):
`` `${method}:${path}${url.search}:${authHash}${bodyKey}` ``. -/
def cacheKeyOf (sha : String → String) (upstreamApiKey method path search authHeader rawBody : String) :
    String :=
  method ++ ":" ++ path ++ search ++ ":" ++
    authFingerprintPart sha upstreamApiKey authHeader ++ bodyKeyPart sha method rawBody

/-! ## Forwarding pipeline (`server.js` lines 143-234)

The segment modelled here starts after admission control (the request has
already passed the rate limiter and targets `/v1/*`), and covers: body
parsing, the bypass decision, cache-key derivation, cache lookup, upstream
forwarding, the upstream-error branch, and the store decision.  The HTTP
response body/headers themselves are out of scope; the modelled outputs are
the response status, the `x-cache` indicator, the cache and counter states,
and trace flags recording which effects happened. -/

/-- The request fields the modelled segment reads. -/
structure ProxyRequest where
  method : String
  path : String
  search : String
  contentType : String
  xCacheInvalidate : Option String
  authorization : String
  rawBody : String
deriving DecidableEq

/-- Configuration consumed by the modelled segment. -/
structure GatewayConfig where
  upstreamApiKey : String
  cacheOnlySuccess : Bool
deriving DecidableEq

/-- The server-level observability counters touched by the modelled segment. -/
structure Counters where
  cache_hits : Nat
  cache_misses : Nat
  cache_bypass : Nat
  cache_stores : Nat
  upstream_errors : Nat
deriving DecidableEq

/-- A cached upstream response `{status, headers, body}`. -/
structure CachedResponse where
  status : Nat
  headers : List (String × String)
  body : String
deriving DecidableEq

/-- The outcome of the single `fetch` to the upstream: a response, or a
network/timeout failure (the promise rejecting, including the
`AbortController` firing). -/
inductive UpstreamOutcome : Type where
  | ok (status : Nat) (headers : List (String × String)) (body : String)
  | fetchError
deriving DecidableEq

/-- What the modelled pipeline segment produced: response status and
`x-cache` tag, the final cache and counters, and a trace of effects
(`upstreamCalls` counts `fetch` attempts; `cacheLookedUp` / `cacheStored`
record whether `cache.get` / `cache.set` ran). -/
structure PipelineOutput where
  status : Nat
  xCache : String
  cache : TTLCache CachedResponse
  counters : Counters
  upstreamCalls : Nat
  cacheLookedUp : Bool
  cacheStored : Bool
deriving DecidableEq

/-- `server.js` lines 192-234: the upstream call and the response/store phase.
`bypass`, the derived `key`, the `x-cache` tag and the post-lookup cache and
counters are handed over from the phase before the `fetch`. -/
def forwardAndRespond (cfg : GatewayConfig) (req : ProxyRequest) (outcome : UpstreamOutcome)
    (key xc : String) (bypass : Bool) (cache1 : TTLCache CachedResponse) (ctr1 : Counters)
    (lookedUp : Bool) (nowStore : Int) : PipelineOutput :=
  match outcome with
  | .fetchError =>
    { status := 502, xCache := xc, cache := cache1,
      counters := { ctr1 with upstream_errors := ctr1.upstream_errors + 1 },
      upstreamCalls := 1, cacheLookedUp := lookedUp, cacheStored := false }
  | .ok s hs b =>
    let respHeaders :=
      (hs.filter (fun kv => !(decide (jsToLower kv.1 ∈ ["transfer-encoding", "connection"]))))
        ++ [("x-cache", xc)]
    let isOk := decide (200 ≤ s) && decide (s < 300)
    let shouldCache := !bypass && (!cfg.cacheOnlySuccess || isOk) && decide (req.method = "POST")
    if shouldCache then
      { status := s, xCache := xc,
        cache := cache1.set key ⟨s, respHeaders, b⟩ none nowStore,
        counters := { ctr1 with cache_stores := ctr1.cache_stores + 1 },
        upstreamCalls := 1, cacheLookedUp := lookedUp, cacheStored := true }
    else
      { status := s, xCache := xc, cache := cache1, counters := ctr1,
        upstreamCalls := 1, cacheLookedUp := lookedUp, cacheStored := false }

/-- `server.js` lines 143-149: `parsed && isLikelyStream(parsed)` — the body
is parsed only when the content type includes `application/json`
(`safeJsonParse` is the external `JSON.parse` wrapped to return `none` on
failure, passed in as `jsonParse`). -/
def requestStreamFlag (jsonParse : String → Option JVal) (req : ProxyRequest) : Bool :=
  match (if strIncludes req.contentType "application/json"
         then jsonParse req.rawBody else none) with
  | some v => isLikelyStream v
  | none => false

/-- `server.js` line 149: `bypass = cacheInvalidate || (parsed && isLikelyStream(parsed))`. -/
def requestBypass (jsonParse : String → Option JVal) (req : ProxyRequest) : Bool :=
  parseBoolean req.xCacheInvalidate false || requestStreamFlag jsonParse req

/-- `server.js` lines 152-155: the derived cache key of a request. -/
def requestKey (sha : String → String) (cfg : GatewayConfig) (req : ProxyRequest) : String :=
  cacheKeyOf sha cfg.upstreamApiKey req.method req.path req.search
    req.authorization req.rawBody

/-- `server.js` lines 143-234 (after admission): parse the body if the
content type includes `application/json`, decide `bypass`
(`x-cache-invalidate` header, or a body with `stream === true`), derive the
cache key, look the key up unless bypassing, serve a hit directly, and
otherwise forward and run the response/store phase.  `sha` and `jsonParse`
are the external hashing/parsing collaborators; `nowLookup`/`nowStore` are
the clock readings at the lookup and at the store. -/
def handleProxyRequest (sha : String → String) (jsonParse : String → Option JVal)
    (cfg : GatewayConfig) (cache0 : TTLCache CachedResponse) (ctr0 : Counters)
    (req : ProxyRequest) (outcome : UpstreamOutcome) (nowLookup nowStore : Int) :
    PipelineOutput :=
  let cacheInvalidate := parseBoolean req.xCacheInvalidate false
  let bypass := requestBypass jsonParse req
  let key := requestKey sha cfg req
  if bypass then
    let xc := if cacheInvalidate then "bypass-invalidate" else "bypass"
    forwardAndRespond cfg req outcome key xc true cache0
      { ctr0 with cache_bypass := ctr0.cache_bypass + 1 } false nowStore
  else
    match cache0.get key nowLookup with
    | (some v, cache1) =>
      { status := v.status, xCache := "hit", cache := cache1,
        counters := { ctr0 with cache_hits := ctr0.cache_hits + 1 },
        upstreamCalls := 0, cacheLookedUp := true, cacheStored := false }
    | (none, cache1) =>
      forwardAndRespond cfg req outcome key "miss" false cache1
        { ctr0 with cache_misses := ctr0.cache_misses + 1 } true nowStore

/-! ## Operation sequences over the cache (for the invariant claims) -/

/-- A client-visible cache operation, tagged with the clock reading at which
it runs. -/
inductive CacheOp (α : Type) : Type where
  | setOp (k : String) (v : α) (ttlOverrideMs : Option Int) (now : Int)
  | getOp (k : String) (now : Int)

/-- Run one operation (the `get` return value is discarded). -/
def applyOp {α : Type} (c : TTLCache α) : CacheOp α → TTLCache α
  | .setOp k v ttl t => c.set k v ttl t
  | .getOp k t => (c.get k t).2

/-- Run a sequence of operations left to right. -/
def runOps {α : Type} (c : TTLCache α) : List (CacheOp α) → TTLCache α
  | [] => c
  | op :: ops => runOps (applyOp c op) ops

/-- The clock reading of an operation. -/
def opTime {α : Type} : CacheOp α → Int
  | .setOp _ _ _ t => t
  | .getOp _ t => t

/-- No stored entry is expired at clock reading `t`. -/
def noExpiredAt {α : Type} (c : TTLCache α) (t : Int) : Bool :=
  c.entries.all (fun e => decide (t < e.2.expiresAt))

/-- Modelled from the spec: an operation sequence is *expiry-free* when no
stored entry is expired at the time of any operation in the run. -/
def expiryFreeRun {α : Type} (c : TTLCache α) : List (CacheOp α) → Bool
  | [] => true
  | op :: ops => noExpiredAt c (opTime op) && expiryFreeRun (applyOp c op) ops

/-- One-step condition of the weaker run condition the refinement needs:
a `get` that finds a node finds it unexpired (`set` never consults expiry). -/
def getOk {α : Type} (c : TTLCache α) : CacheOp α → Bool
  | .setOp _ _ _ _ => true
  | .getOp k t =>
    match lookupKey k c.entries with
    | some e => decide (t < e.expiresAt)
    | none => true

/-- The weaker run condition the refinement actually needs: every `get` that
finds a node finds it unexpired. -/
def getsUnexpiredRun {α : Type} (c : TTLCache α) : List (CacheOp α) → Bool
  | [] => true
  | op :: ops => getOk c op && getsUnexpiredRun (applyOp c op) ops

/-- Modelled from the spec: "touching" a key moves it to the front of the
most-recently-touched order, truncated to the capacity `C`. -/
def touchKeys (C : Nat) (k : String) (l : List String) : List String :=
  (k :: l.filter (fun x => x != k)).take C

/-- Modelled from the spec: the abstract effect of one operation on the
most-recently-touched key order — `set` always touches its key; `get`
touches its key iff the key is retained. -/
def absStep {α : Type} (C : Nat) (l : List String) : CacheOp α → List String
  | .setOp k _ _ _ => touchKeys C k l
  | .getOp k _ => if k ∈ l then touchKeys C k l else l

/-- The abstract most-recently-touched key order after a run. -/
def absRun {α : Type} (C : Nat) (l : List String) : List (CacheOp α) → List String
  | [] => l
  | op :: ops => absRun C (absStep C l op) ops

/-! ## Association-list lemmas -/

theorem lookupKey_setAssoc_self {β : Type _} (l : List (String × β)) (k : String) (v : β) :
    lookupKey k (setAssoc l k v) = some v := by
  induction l with
  | nil => simp [setAssoc, lookupKey]
  | cons hd tl ih =>
    obtain ⟨k', v'⟩ := hd
    by_cases h : k' = k
    · subst h; simp [setAssoc, lookupKey]
    · simp [setAssoc, lookupKey, h, ih]

theorem lookupKey_setAssoc_ne {β : Type _} (l : List (String × β)) (k : String) (v : β)
    (k' : String) (h : k' ≠ k) :
    lookupKey k' (setAssoc l k v) = lookupKey k' l := by
  have hks : ¬ k = k' := fun hh => h hh.symm
  induction l with
  | nil => simp [setAssoc, lookupKey, hks]
  | cons hd tl ih =>
    obtain ⟨a, b⟩ := hd
    by_cases ha : a = k
    · subst ha
      simp [setAssoc, lookupKey, hks]
    · by_cases ha' : a = k'
      · subst ha'; simp [setAssoc, lookupKey, ha]
      · simp [setAssoc, lookupKey, ha, ha', ih]

theorem mem_setAssoc {β : Type _} (l : List (String × β)) (k : String) (v : β)
    (p : String × β) (hp : p ∈ setAssoc l k v) : p = (k, v) ∨ p ∈ l := by
  induction l with
  | nil => simp [setAssoc] at hp; simp [hp]
  | cons hd tl ih =>
    obtain ⟨a, b⟩ := hd
    by_cases ha : a = k
    · subst ha
      simp [setAssoc] at hp
      rcases hp with h | h
      · exact Or.inl (by simp [h])
      · exact Or.inr (by simp [h])
    · simp [setAssoc, ha] at hp
      rcases hp with h | h
      · exact Or.inr (by simp [h])
      · rcases ih h with h' | h'
        · exact Or.inl h'
        · exact Or.inr (by simp [h'])

theorem lookupKey_mem {β : Type _} (l : List (String × β)) (k : String) (v : β)
    (h : lookupKey k l = some v) : (k, v) ∈ l := by
  induction l with
  | nil => simp [lookupKey] at h
  | cons hd tl ih =>
    obtain ⟨a, b⟩ := hd
    by_cases ha : a = k
    · subst ha
      simp [lookupKey] at h
      simp [h]
    · simp [lookupKey, ha] at h
      exact List.mem_cons_of_mem _ (ih h)

theorem lookupKey_eq_none_iff {β : Type _} (l : List (String × β)) (k : String) :
    lookupKey k l = none ↔ k ∉ l.map Prod.fst := by
  induction l with
  | nil => simp [lookupKey]
  | cons hd tl ih =>
    obtain ⟨a, b⟩ := hd
    by_cases ha : a = k
    · subst ha; simp [lookupKey]
    · have hka : ¬ k = a := fun hh => ha hh.symm
      simp [lookupKey, ha, hka, ih]

theorem exists_lookupKey_of_mem_fst {β : Type _} (l : List (String × β)) (k : String)
    (h : k ∈ l.map Prod.fst) : ∃ v, lookupKey k l = some v := by
  cases hl : lookupKey k l with
  | none => exact absurd h ((lookupKey_eq_none_iff l k).mp hl)
  | some v => exact ⟨v, rfl⟩

theorem lookupKey_removeKey_self {β : Type _} (l : List (String × β)) (k : String) :
    lookupKey k (removeKey k l) = none := by
  induction l with
  | nil => rfl
  | cons hd tl ih =>
    obtain ⟨a, b⟩ := hd
    by_cases ha : a = k
    · simpa [removeKey, List.filter_cons, ha] using ih
    · simpa [removeKey, List.filter_cons, ha, lookupKey] using ih

theorem lookupKey_removeKey_ne {β : Type _} (l : List (String × β)) (k k' : String)
    (h : k' ≠ k) : lookupKey k' (removeKey k l) = lookupKey k' l := by
  have hks : ¬ k = k' := fun hh => h hh.symm
  induction l with
  | nil => rfl
  | cons hd tl ih =>
    obtain ⟨a, b⟩ := hd
    by_cases ha : a = k
    · subst ha
      simpa [removeKey, List.filter_cons, lookupKey, hks] using ih
    · by_cases ha' : a = k'
      · subst ha'; simp [removeKey, List.filter_cons, ha, lookupKey]
      · simpa [removeKey, List.filter_cons, ha, ha', lookupKey] using ih

theorem map_fst_removeKey {β : Type _} (k : String) (l : List (String × β)) :
    (removeKey k l).map Prod.fst = (l.map Prod.fst).filter (fun x => x != k) := by
  induction l with
  | nil => rfl
  | cons hd tl ih =>
    by_cases h : hd.1 = k
    · simp [removeKey, List.filter_cons, h, bne_self_eq_false] at *
      simpa [removeKey] using ih
    · simp [removeKey, List.filter_cons, h, bne_iff_ne] at *
      simpa [removeKey] using ih

theorem removeKey_of_not_mem_fst {β : Type _} (k : String) (l : List (String × β))
    (h : k ∉ l.map Prod.fst) : removeKey k l = l := by
  induction l with
  | nil => rfl
  | cons hd tl ih =>
    have h1 : ¬ (hd.1 = k) := by
      intro hh
      exact h (by simp [hh.symm])
    have h2 : k ∉ tl.map Prod.fst := by
      intro hh
      exact h (by simp [hh])
    have h3 : removeKey k tl = tl := ih h2
    simp [removeKey, List.filter_cons, bne_iff_ne, h1]
    simpa [removeKey] using h3

theorem filter_ne_of_not_mem (k : String) (l : List String) (h : k ∉ l) :
    l.filter (fun x => x != k) = l := by
  induction l with
  | nil => rfl
  | cons a tl ih =>
    have h1 : ¬ (a = k) := by
      intro hh
      exact h (by simp [hh.symm])
    have h2 : k ∉ tl := fun hh => h (List.mem_cons_of_mem _ hh)
    simp [List.filter_cons, bne_iff_ne, h1]
    intro x hx hxk
    exact h2 (hxk ▸ hx)

theorem length_filter_ne_of_nodup (l : List String) (k : String)
    (hnd : l.Nodup) (hm : k ∈ l) :
    (l.filter (fun x => x != k)).length + 1 = l.length := by
  induction l with
  | nil => simp at hm
  | cons a tl ih =>
    rcases List.nodup_cons.mp hnd with ⟨hna, hnd'⟩
    rcases List.mem_cons.mp hm with h | h
    · subst h
      simp [List.filter_cons, bne_self_eq_false, filter_ne_of_not_mem _ _ hna]
    · have hak : a ≠ k := fun hh => hna (hh ▸ h)
      simp [List.filter_cons, bne_iff_ne, hak]
      exact ih hnd' h

/-! ## Characterizations of the cache operations -/

theorem TTLCache.get_of_lookup_none {α : Type} (c : TTLCache α) (k : String) (now : Int)
    (h : lookupKey k c.entries = none) :
    c.get k now = (none, { c with misses := c.misses + 1 }) := by
  simp [TTLCache.get, h]

theorem TTLCache.get_expired {α : Type} (c : TTLCache α) (k : String) (now : Int)
    (e : CacheEntry α) (h : lookupKey k c.entries = some e) (hx : e.expiresAt ≤ now) :
    c.get k now =
      (none, { c with entries := removeKey k c.entries, misses := c.misses + 1 }) := by
  simp [TTLCache.get, h, hx]

theorem TTLCache.get_live {α : Type} (c : TTLCache α) (k : String) (now : Int)
    (e : CacheEntry α) (h : lookupKey k c.entries = some e) (hx : now < e.expiresAt) :
    c.get k now =
      (some e.value,
       { c with entries := (k, e) :: removeKey k c.entries, hits := c.hits + 1 }) := by
  simp [TTLCache.get, h, not_le.mpr hx]

theorem TTLCache.set_existing {α : Type} (c : TTLCache α) (k : String) (v : α)
    (ttlOverrideMs : Option Int) (now : Int) (e : CacheEntry α)
    (h : lookupKey k c.entries = some e) :
    c.set k v ttlOverrideMs now =
      { c with entries := (k, ⟨v, now + ttlOverrideMs.getD c.ttlMs⟩) :: removeKey k c.entries,
               stores := c.stores + 1 } := by
  simp [TTLCache.set, h]

theorem TTLCache.set_new {α : Type} (c : TTLCache α) (k : String) (v : α)
    (ttlOverrideMs : Option Int) (now : Int)
    (h : lookupKey k c.entries = none) :
    c.set k v ttlOverrideMs now =
      { c with
        entries := ((k, ⟨v, now + ttlOverrideMs.getD c.ttlMs⟩) :: c.entries).take c.maxEntries,
        evictions := c.evictions + (c.entries.length + 1 - c.maxEntries),
        stores := c.stores + 1 } := by
  simp [TTLCache.set, h, TTLCache.evictIfNeeded]

theorem maxEntries_applyOp {α : Type} (c : TTLCache α) (op : CacheOp α) :
    (applyOp c op).maxEntries = c.maxEntries := by
  cases op with
  | setOp k v ttl t =>
    cases hl : lookupKey k c.entries with
    | none => simp [applyOp, TTLCache.set_new c k v ttl t hl]
    | some e => simp [applyOp, TTLCache.set_existing c k v ttl t e hl]
  | getOp k t =>
    cases hl : lookupKey k c.entries with
    | none => simp [applyOp, TTLCache.get_of_lookup_none c k t hl]
    | some e =>
      by_cases hx : e.expiresAt ≤ t
      · simp [applyOp, TTLCache.get_expired c k t e hl hx]
      · simp [applyOp, TTLCache.get_live c k t e hl (not_le.mp hx)]

/-! ## Lemmas about the abstract most-recently-touched order -/

theorem nodup_touchKeys (C : Nat) (k : String) (l : List String) (h : l.Nodup) :
    (touchKeys C k l).Nodup := by
  have h1 : (k :: l.filter (fun x => x != k)).Nodup := by
    refine List.nodup_cons.mpr ⟨?_, List.Nodup.filter _ h⟩
    intro hk
    have := (List.mem_filter.mp hk).2
    simp at this
  exact ((List.take_sublist _ _).nodup h1)

theorem length_touchKeys_le (C : Nat) (k : String) (l : List String) :
    (touchKeys C k l).length ≤ C := by
  simp [touchKeys, List.length_take]

theorem touchKeys_of_mem (C : Nat) (k : String) (l : List String)
    (hnd : l.Nodup) (hm : k ∈ l) (hlen : l.length ≤ C) :
    touchKeys C k l = k :: l.filter (fun x => x != k) := by
  unfold touchKeys
  apply List.take_of_length_le
  have := length_filter_ne_of_nodup l k hnd hm
  simp
  omega

theorem touchKeys_of_not_mem (C : Nat) (k : String) (l : List String)
    (hm : k ∉ l) : touchKeys C k l = (k :: l).take C := by
  unfold touchKeys
  rw [filter_ne_of_not_mem _ _ hm]

/-! ## The refinement: concrete key order vs most-recently-touched order -/

theorem map_fst_set {α : Type} (c : TTLCache α) (k : String) (v : α)
    (ttl : Option Int) (now : Int)
    (hnd : (c.entries.map Prod.fst).Nodup) (hlen : c.entries.length ≤ c.maxEntries) :
    (c.set k v ttl now).entries.map Prod.fst
      = touchKeys c.maxEntries k (c.entries.map Prod.fst) := by
  cases hl : lookupKey k c.entries with
  | some e =>
    have hkmem : k ∈ c.entries.map Prod.fst :=
      List.mem_map.mpr ⟨(k, e), lookupKey_mem _ _ _ hl, rfl⟩
    have hlen' : (c.entries.map Prod.fst).length ≤ c.maxEntries := by
      simpa using hlen
    rw [TTLCache.set_existing c k v ttl now e hl,
        touchKeys_of_mem _ _ _ hnd hkmem hlen']
    simp [map_fst_removeKey]
  | none =>
    have hknot : k ∉ c.entries.map Prod.fst := (lookupKey_eq_none_iff _ _).mp hl
    rw [TTLCache.set_new c k v ttl now hl, touchKeys_of_not_mem _ _ _ hknot]
    simp [List.map_take]

theorem step_keys {α : Type} (c : TTLCache α) (op : CacheOp α)
    (h1 : (c.entries.map Prod.fst).Nodup) (h2 : c.entries.length ≤ c.maxEntries)
    (hcond : getOk c op = true) :
    (applyOp c op).entries.map Prod.fst
      = absStep c.maxEntries (c.entries.map Prod.fst) op := by
  cases op with
  | setOp k v ttl t => exact map_fst_set c k v ttl t h1 h2
  | getOp k t =>
    cases hl : lookupKey k c.entries with
    | none =>
      have hknot : k ∉ c.entries.map Prod.fst := (lookupKey_eq_none_iff _ _).mp hl
      simp [applyOp, TTLCache.get_of_lookup_none c k t hl, absStep, hknot]
    | some e =>
      have ht : t < e.expiresAt := by
        have hc := hcond
        simp [getOk, hl] at hc
        exact hc
      have hkmem : k ∈ c.entries.map Prod.fst :=
        List.mem_map.mpr ⟨(k, e), lookupKey_mem _ _ _ hl, rfl⟩
      have hlen' : (c.entries.map Prod.fst).length ≤ c.maxEntries := by
        simpa using h2
      simp [applyOp, TTLCache.get_live c k t e hl ht, absStep, hkmem,
            touchKeys_of_mem _ _ _ h1 hkmem hlen', map_fst_removeKey]

theorem absStep_nodup {α : Type} (C : Nat) (l : List String) (op : CacheOp α)
    (h : l.Nodup) : (absStep C l op).Nodup := by
  cases op with
  | setOp k v ttl t => exact nodup_touchKeys C k l h
  | getOp k t =>
    by_cases hm : k ∈ l
    · simpa [absStep, hm] using nodup_touchKeys C k l h
    · simpa [absStep, hm] using h

theorem absStep_length_le {α : Type} (C : Nat) (l : List String) (op : CacheOp α)
    (h : l.length ≤ C) : (absStep C l op).length ≤ C := by
  cases op with
  | setOp k v ttl t => exact length_touchKeys_le C k l
  | getOp k t =>
    by_cases hm : k ∈ l
    · simpa [absStep, hm] using length_touchKeys_le C k l
    · simpa [absStep, hm] using h

/-- The refinement along a run: under the per-`get` freshness condition the
concrete MRU-first key list follows the abstract most-recently-touched
order, stays duplicate-free, and never exceeds the capacity. -/
theorem runOps_keys {α : Type} (ops : List (CacheOp α)) :
    ∀ (c : TTLCache α),
      (c.entries.map Prod.fst).Nodup →
      c.entries.length ≤ c.maxEntries →
      getsUnexpiredRun c ops = true →
      ((runOps c ops).entries.map Prod.fst
          = absRun c.maxEntries (c.entries.map Prod.fst) ops)
        ∧ ((runOps c ops).entries.map Prod.fst).Nodup
        ∧ (runOps c ops).entries.length ≤ c.maxEntries
        ∧ (runOps c ops).maxEntries = c.maxEntries := by
  induction ops with
  | nil =>
    intro c h1 h2 _
    exact ⟨rfl, h1, h2, rfl⟩
  | cons op rest ih =>
    intro c h1 h2 hrun
    rw [getsUnexpiredRun] at hrun
    obtain ⟨hcond, hrest⟩ :
        getOk c op = true ∧ getsUnexpiredRun (applyOp c op) rest = true := by
      simpa using hrun
    have hstep := step_keys c op h1 h2 hcond
    have hnd' : ((applyOp c op).entries.map Prod.fst).Nodup := by
      rw [hstep]; exact absStep_nodup _ _ _ h1
    have hlen' : (applyOp c op).entries.length ≤ (applyOp c op).maxEntries := by
      rw [maxEntries_applyOp]
      have hlm : (applyOp c op).entries.length
          = ((applyOp c op).entries.map Prod.fst).length := by simp
      rw [hlm, hstep]
      exact absStep_length_le _ _ _ (by simpa using h2)
    have hmain := ih (applyOp c op) hnd' hlen' hrest
    have hme := maxEntries_applyOp c op
    refine ⟨?_, hmain.2.1, ?_, ?_⟩
    · show (runOps (applyOp c op) rest).entries.map Prod.fst
        = absRun c.maxEntries (absStep c.maxEntries (c.entries.map Prod.fst) op) rest
      rw [hmain.1, hme, hstep]
    · show (runOps (applyOp c op) rest).entries.length ≤ c.maxEntries
      calc (runOps (applyOp c op) rest).entries.length
          ≤ (applyOp c op).maxEntries := hmain.2.2.1
        _ = c.maxEntries := hme
    · show (runOps (applyOp c op) rest).maxEntries = c.maxEntries
      rw [hmain.2.2.2, hme]

theorem getsUnexpired_of_expiryFree {α : Type} (ops : List (CacheOp α)) :
    ∀ c : TTLCache α, expiryFreeRun c ops = true → getsUnexpiredRun c ops = true := by
  induction ops with
  | nil => intro c _; rfl
  | cons op rest ih =>
    intro c h
    rw [expiryFreeRun] at h
    obtain ⟨h1, h2⟩ :
        noExpiredAt c (opTime op) = true ∧ expiryFreeRun (applyOp c op) rest = true := by
      simpa using h
    rw [getsUnexpiredRun]
    refine Bool.and_eq_true_iff.mpr ⟨?_, ih _ h2⟩
    cases op with
    | setOp k v ttl t => rfl
    | getOp k t =>
      cases hl : lookupKey k c.entries with
      | none => simp [getOk, hl]
      | some e =>
        have hmem : (k, e) ∈ c.entries := lookupKey_mem _ _ _ hl
        have hall : ∀ a b, (a, b) ∈ c.entries → t < b.expiresAt := by
          simpa [noExpiredAt, opTime] using h1
        simp [getOk, hl]
        exact hall k e hmem

theorem expiryFree_take {α : Type} (ops : List (CacheOp α)) :
    ∀ (c : TTLCache α) (n : Nat),
      expiryFreeRun c ops = true → expiryFreeRun c (ops.take n) = true := by
  induction ops with
  | nil => intro c n _; simp [expiryFreeRun]
  | cons op rest ih =>
    intro c n h
    cases n with
    | zero => rfl
    | succ n =>
      rw [expiryFreeRun] at h
      obtain ⟨h1, h2⟩ :
          noExpiredAt c (opTime op) = true ∧ expiryFreeRun (applyOp c op) rest = true := by
        simpa using h
      rw [List.take_succ_cons, expiryFreeRun]
      exact Bool.and_eq_true_iff.mpr ⟨h1, ih _ n h2⟩

/-! ## Sequences of plain insertions (for the eviction tie-break claim) -/

theorem take_append_take {γ : Type _} (X Y : List γ) (C : Nat) :
    (X ++ Y.take C).take C = (X ++ Y).take C := by
  rw [List.take_append_eq_append_take, List.take_append_eq_append_take, List.take_take]
  have hm : min (C - X.length) C = C - X.length := by omega
  rw [hm]

theorem getsUnexpired_setsOps {α : Type} (kvs : List (String × α)) (ttl : Option Int)
    (t : Int) :
    ∀ c : TTLCache α,
      getsUnexpiredRun c (kvs.map (fun p => CacheOp.setOp p.1 p.2 ttl t)) = true := by
  induction kvs with
  | nil => intro c; rfl
  | cons p rest ih =>
    intro c
    rw [List.map_cons, getsUnexpiredRun]
    exact Bool.and_eq_true_iff.mpr ⟨rfl, ih _⟩

theorem absRun_setsOps {α : Type} (C : Nat) (ttl : Option Int) (t : Int)
    (kvs : List (String × α)) :
    ∀ l : List String,
      (kvs.map Prod.fst).Nodup →
      (∀ k ∈ kvs.map Prod.fst, k ∉ l) →
      l.length ≤ C →
      absRun C l (kvs.map (fun p => CacheOp.setOp p.1 p.2 ttl t))
        = ((kvs.map Prod.fst).reverse ++ l).take C := by
  induction kvs with
  | nil =>
    intro l _ _ hlen
    simpa [absRun] using (List.take_of_length_le hlen).symm
  | cons p rest ih =>
    intro l hnd hfresh hlen
    obtain ⟨k, v⟩ := p
    rw [List.map_cons] at hnd
    have hknd : k ∉ rest.map Prod.fst := (List.nodup_cons.mp hnd).1
    have hrestnd : (rest.map Prod.fst).Nodup := (List.nodup_cons.mp hnd).2
    have hkl : k ∉ l := hfresh k (by simp)
    rw [List.map_cons]
    show absRun C (absStep C l (CacheOp.setOp k v ttl t))
        (rest.map (fun p => CacheOp.setOp p.1 p.2 ttl t))
      = List.take C ((((k, v) :: rest).map Prod.fst).reverse ++ l)
    have habs : absStep C l (CacheOp.setOp k v ttl t) = (k :: l).take C := by
      simp [absStep, touchKeys_of_not_mem C k l hkl]
    rw [habs]
    have hfresh' : ∀ k' ∈ rest.map Prod.fst, k' ∉ (k :: l).take C := by
      intro k' hk' hmem
      have hmem' : k' ∈ k :: l := List.take_subset _ _ hmem
      rcases List.mem_cons.mp hmem' with h | h
      · exact hknd (h ▸ hk')
      · exact hfresh k' (by simp [hk']) h
    have hlen' : ((k :: l).take C).length ≤ C := by
      simp [List.length_take]
    rw [ih ((k :: l).take C) hrestnd hfresh' hlen']
    rw [take_append_take]
    simp [List.append_assoc]

theorem reverse_take_of_length_succ (l : List String) (C : Nat) (h : l.length = C + 1) :
    l.reverse.take C = l.tail.reverse := by
  cases l with
  | nil => simp at h
  | cons a t =>
    have hlen : t.reverse.length = C := by
      simp at h
      simpa using h
    rw [List.reverse_cons, List.take_append_eq_append_take,
        List.take_of_length_le (le_of_eq hlen), hlen]
    simp

/-! ## Logical contents are untouched by `get` -/

theorem logicalLookup_get_snd {α : Type} (c : TTLCache α) (k : String) (now : Int)
    (k' : String) (t : Int) (hnow : now ≤ t) :
    ((c.get k now).2).logicalLookup k' t = c.logicalLookup k' t := by
  cases hl : lookupKey k c.entries with
  | none => simp [TTLCache.get_of_lookup_none c k now hl, TTLCache.logicalLookup]
  | some e =>
    by_cases hx : e.expiresAt ≤ now
    · rw [TTLCache.get_expired c k now e hl hx]
      by_cases hk : k' = k
      · subst hk
        simp [TTLCache.logicalLookup, lookupKey_removeKey_self, hl, le_trans hx hnow]
      · simp [TTLCache.logicalLookup, lookupKey_removeKey_ne _ _ _ hk]
    · rw [TTLCache.get_live c k now e hl (not_le.mp hx)]
      by_cases hk : k' = k
      · subst hk
        simp [TTLCache.logicalLookup, lookupKey, hl]
      · have hkk : ¬ (k = k') := fun hh => hk hh.symm
        simp [TTLCache.logicalLookup, lookupKey, hkk, lookupKey_removeKey_ne _ _ _ hk]

/-! ## The rate limiter: characterization and invariant -/

theorem ratFloor_eq_intFloor (q : ℚ) : Rat.floor q = ⌊q⌋ := rfl

theorem tryRemoveToken_eq (rl : RateLimiter) (id : String) (n now : ℚ) :
    rl.tryRemoveToken id n now =
      (if n ≤ rl.specRefilled id now then
        ((true, Rat.floor (rl.specRefilled id now - n)),
         { rl with buckets := setAssoc rl.buckets id ⟨rl.specRefilled id now - n, now⟩ })
      else
        ((false, Rat.floor (rl.specRefilled id now)),
         { rl with
           buckets := setAssoc rl.buckets id ⟨rl.specRefilled id now, now⟩,
           limited := rl.limited + 1 })) := by
  cases hl : lookupKey id rl.buckets <;>
    simp [RateLimiter.tryRemoveToken, RateLimiter.specRefilled,
          RateLimiter.refillBucket, hl]

theorem specRefilled_bounds (rl : RateLimiter) (id : String) (now : ℚ)
    (hmax : 0 ≤ rl.max) (hrefill : 0 ≤ rl.refill)
    (hinv : ∀ p ∈ rl.buckets, 0 ≤ p.2.tokens ∧ p.2.tokens ≤ rl.max)
    (hlast : ∀ p ∈ rl.buckets, p.1 = id → p.2.last ≤ now) :
    0 ≤ rl.specRefilled id now ∧ rl.specRefilled id now ≤ rl.max := by
  unfold RateLimiter.specRefilled
  cases hl : lookupKey id rl.buckets with
  | none =>
    refine ⟨?_, min_le_left _ _⟩
    simp [hmax]
  | some b =>
    have hb := hinv _ (lookupKey_mem _ _ _ hl)
    have hbl := hlast _ (lookupKey_mem _ _ _ hl) rfl
    refine ⟨?_, min_le_left _ _⟩
    apply le_min hmax
    have h1 : 0 ≤ (now - b.last) / 1000 * rl.refill := by
      apply mul_nonneg
      · apply div_nonneg (by linarith) (by norm_num)
      · exact hrefill
    simp only
    linarith [hb.1]

/-- C1: for every client id and every `n ≥ 1`, `tryRemoveToken` (the spec's
`tryConsume`) first refills the bucket to
`min(max, tokens + elapsedSeconds * refillRate)` — a bucket being lazily
created with `tokens = max` on first sight — and then, if the refilled
tokens are at least `n`, subtracts `n` and returns `ok = true` with
`remaining = floor(tokens)` (after the subtraction), leaving the rejection
counter alone; otherwise it subtracts nothing, returns `ok = false` with
`remaining = floor(tokens)`, and increments the rejection counter. -/
theorem C1_tryConsume_refill_check_subtract (rl : RateLimiter) (id : String)
    (n now : ℚ) (hn : 1 ≤ n) :
    (n ≤ rl.specRefilled id now →
      (rl.tryRemoveToken id n now).1
          = (true, Rat.floor (rl.specRefilled id now - n))
        ∧ lookupKey id (rl.tryRemoveToken id n now).2.buckets
            = some ⟨rl.specRefilled id now - n, now⟩
        ∧ (rl.tryRemoveToken id n now).2.limited = rl.limited) ∧
    (rl.specRefilled id now < n →
      (rl.tryRemoveToken id n now).1
          = (false, Rat.floor (rl.specRefilled id now))
        ∧ lookupKey id (rl.tryRemoveToken id n now).2.buckets
            = some ⟨rl.specRefilled id now, now⟩
        ∧ (rl.tryRemoveToken id n now).2.limited = rl.limited + 1) := by
  constructor
  · intro hge
    rw [tryRemoveToken_eq, if_pos hge]
    exact ⟨rfl, lookupKey_setAssoc_self _ _ _, rfl⟩
  · intro hlt
    rw [tryRemoveToken_eq, if_neg (not_le.mpr hlt)]
    exact ⟨rfl, lookupKey_setAssoc_self _ _ _, rfl⟩

/-- Witness for C1: a fresh client against the default configuration
(`maxTokens = 60`): the refilled bucket holds 60 tokens, the request is
admitted, one token is consumed and `remaining = 59`. -/
theorem C1_witness :
    (1 : ℚ) ≤ 1 ∧
    ((RateLimiter.mk0 60 1).tryRemoveToken "client" 1 0).1 = (true, 59) ∧
    lookupKey "client" ((RateLimiter.mk0 60 1).tryRemoveToken "client" 1 0).2.buckets
      = some ⟨59, 0⟩ ∧
    ((RateLimiter.mk0 60 1).tryRemoveToken "client" 1 0).2.limited = 0 := by
  have hspec : (RateLimiter.mk0 60 1).specRefilled "client" 0 = 60 := by
    norm_num [RateLimiter.specRefilled, RateLimiter.mk0, lookupKey]
  have h := (C1_tryConsume_refill_check_subtract (RateLimiter.mk0 60 1) "client" 1 0
    (by norm_num)).1 (by rw [hspec]; norm_num)
  refine ⟨by norm_num, ?_, ?_, h.2.2⟩
  · rw [h.1, hspec, ratFloor_eq_intFloor]
    norm_num
  · rw [h.2.1, hspec]
    norm_num

/-- C7: `tryRemoveToken` preserves the token-bucket invariant: afterwards
every bucket's tokens lie in `[0, max]`, and the touched bucket's `last`
timestamp does not decrease (under a non-negative configuration, `n ≥ 0`,
and a clock that has not gone backwards for the touched bucket). -/
theorem C7_bucket_invariant (rl : RateLimiter) (id : String) (n now : ℚ)
    (hmax : 0 ≤ rl.max) (hrefill : 0 ≤ rl.refill) (hn : 0 ≤ n)
    (hinv : ∀ p ∈ rl.buckets, 0 ≤ p.2.tokens ∧ p.2.tokens ≤ rl.max)
    (hlast : ∀ p ∈ rl.buckets, p.1 = id → p.2.last ≤ now) :
    (∀ p ∈ (rl.tryRemoveToken id n now).2.buckets,
        0 ≤ p.2.tokens ∧ p.2.tokens ≤ rl.max) ∧
    (∀ b b', lookupKey id rl.buckets = some b →
        lookupKey id (rl.tryRemoveToken id n now).2.buckets = some b' →
        b.last ≤ b'.last) ∧
    (rl.tryRemoveToken id n now).2.max = rl.max := by
  have hsb := specRefilled_bounds rl id now hmax hrefill hinv hlast
  rw [tryRemoveToken_eq]
  by_cases hc : n ≤ rl.specRefilled id now
  · rw [if_pos hc]
    refine ⟨?_, ?_, rfl⟩
    · intro p hp
      rcases mem_setAssoc _ _ _ _ hp with h | h
      · rw [h]
        constructor
        · simp only
          linarith
        · simp only
          linarith [hsb.2]
      · exact hinv p h
    · intro b b' hb hb'
      rw [lookupKey_setAssoc_self] at hb'
      have hbl := hlast _ (lookupKey_mem _ _ _ hb) rfl
      cases hb'
      simpa using hbl
  · rw [if_neg hc]
    refine ⟨?_, ?_, rfl⟩
    · intro p hp
      rcases mem_setAssoc _ _ _ _ hp with h | h
      · rw [h]
        exact ⟨by simpa using hsb.1, by simpa using hsb.2⟩
      · exact hinv p h
    · intro b b' hb hb'
      rw [lookupKey_setAssoc_self] at hb'
      have hbl := hlast _ (lookupKey_mem _ _ _ hb) rfl
      cases hb'
      simpa using hbl

/-- Witness for C7: a limiter with `max = 10`, `refill = 1`, one bucket
holding 5 tokens last refilled at time 0, consuming 1 token at time 2000. -/
theorem C7_witness :
    ((0 : ℚ) ≤ 10 ∧ (0 : ℚ) ≤ 1) ∧
    ((∀ p ∈ ((⟨10, 1, [("u", ⟨5, 0⟩)], 0⟩ : RateLimiter).tryRemoveToken "u" 1 2000).2.buckets,
        0 ≤ p.2.tokens ∧ p.2.tokens ≤ (10 : ℚ)) ∧
     (∀ b b', lookupKey "u" ([("u", (⟨5, 0⟩ : Bucket))]) = some b →
        lookupKey "u" ((⟨10, 1, [("u", ⟨5, 0⟩)], 0⟩ : RateLimiter).tryRemoveToken "u" 1 2000).2.buckets
          = some b' →
        b.last ≤ b'.last) ∧
     ((⟨10, 1, [("u", ⟨5, 0⟩)], 0⟩ : RateLimiter).tryRemoveToken "u" 1 2000).2.max = 10) := by
  refine ⟨⟨by norm_num, by norm_num⟩, ?_⟩
  refine C7_bucket_invariant (⟨10, 1, [("u", ⟨5, 0⟩)], 0⟩ : RateLimiter) "u" 1 2000
    (by norm_num) (by norm_num) (by norm_num) ?_ ?_
  · intro p hp
    simp at hp
    rw [hp]
    norm_num
  · intro p hp _
    simp at hp
    rw [hp]
    norm_num

/-! ## TTL behaviour (C3) -/

theorem lookupKey_set_self {α : Type} (c : TTLCache α) (k : String) (v : α)
    (ttl : Option Int) (now : Int) (hmax : 1 ≤ c.maxEntries) :
    lookupKey k (c.set k v ttl now).entries = some ⟨v, now + ttl.getD c.ttlMs⟩ := by
  cases hl : lookupKey k c.entries with
  | some e =>
    rw [TTLCache.set_existing c k v ttl now e hl]
    simp [lookupKey]
  | none =>
    rw [TTLCache.set_new c k v ttl now hl]
    obtain ⟨m, hm⟩ : ∃ m, c.maxEntries = m + 1 := ⟨c.maxEntries - 1, by omega⟩
    simp [hm, List.take_succ_cons, lookupKey]

/-- C3: a key stored at time `t` with ttl `d` (into a cache of capacity at
least 1, so the insertion itself does not evict the fresh node) is returned
by a directly following `get` at any time strictly before `t + d`, and is
absent — and purged at that moment — for a `get` at any time at or after
`t + d`. -/
theorem C3_ttl_present_iff_before_expiry {α : Type} (c : TTLCache α) (k : String)
    (v : α) (d t tq : Int) (hmax : 1 ≤ c.maxEntries) :
    (tq < t + d → ((c.set k v (some d) t).get k tq).1 = some v) ∧
    (t + d ≤ tq →
      ((c.set k v (some d) t).get k tq).1 = none ∧
      lookupKey k ((c.set k v (some d) t).get k tq).2.entries = none) := by
  have hself : lookupKey k (c.set k v (some d) t).entries = some ⟨v, t + d⟩ :=
    lookupKey_set_self c k v (some d) t hmax
  constructor
  · intro hlt
    rw [TTLCache.get_live _ k tq ⟨v, t + d⟩ hself (by simpa using hlt)]
  · intro hge
    rw [TTLCache.get_expired _ k tq ⟨v, t + d⟩ hself (by simpa using hge)]
    exact ⟨rfl, lookupKey_removeKey_self _ _⟩

/-- Witness for C3: a key stored at time 0 with ttl 10 answers a `get` at
time 5 and is gone for a `get` at time 10. -/
theorem C3_witness :
    1 ≤ (TTLCache.empty Nat 2 100).maxEntries ∧
    (((TTLCache.empty Nat 2 100).set "k" 7 (some 10) 0).get "k" 5).1 = some 7 ∧
    (((TTLCache.empty Nat 2 100).set "k" 7 (some 10) 0).get "k" 10).1 = none := by
  have h5 := C3_ttl_present_iff_before_expiry (TTLCache.empty Nat 2 100) "k" 7 10 0 5
    (by decide)
  have h10 := C3_ttl_present_iff_before_expiry (TTLCache.empty Nat 2 100) "k" 7 10 0 10
    (by decide)
  exact ⟨by decide, h5.1 (by decide), (h10.2 (by decide)).1⟩

/-! ## `get` on an absent key (C8) -/

/-- C8 counterexample: `get` of a key that is *logically* absent (stored but
expired) does change the entries: the expired node is purged, so the first
call does more than bump the miss counter, contrary to the claim. Here the
key is stored at time 0 with default ttl 1000 and read at time 1000: it is
logically absent (expired), the `get` returns absent, but the physically
stored entry — and with it the recency list — changes. -/
theorem C8_counterexample_expired_get_purges :
    ((TTLCache.empty Nat 10 1000).set "k" 42 none 0).logicalLookup "k" 1000 = none ∧
    (((TTLCache.empty Nat 10 1000).set "k" 42 none 0).get "k" 1000).1 = none ∧
    lookupKey "k" ((TTLCache.empty Nat 10 1000).set "k" 42 none 0).entries
      = some ⟨42, 1000⟩ ∧
    lookupKey "k" ((((TTLCache.empty Nat 10 1000).set "k" 42 none 0).get "k" 1000).2).entries
      = none := by
  refine ⟨?_, ?_, ?_, ?_⟩ <;> decide

/-- C8 amended: for every key with *no stored entry at all* (unknown key),
repeated `get` calls return absent and the only state change each call makes
is incrementing the miss counter — entries, recency order and all other
counters are unchanged. (For a physically stored but expired key the first
`get` additionally purges that entry, after which the same holds.) -/
theorem C8_get_unknown_key_idempotent {α : Type} (c : TTLCache α) (k : String)
    (t t2 : Int) (h : lookupKey k c.entries = none) :
    c.get k t = (none, { c with misses := c.misses + 1 }) ∧
    (c.get k t).2.get k t2 = (none, { c with misses := c.misses + 2 }) := by
  have h1 := TTLCache.get_of_lookup_none c k t h
  refine ⟨h1, ?_⟩
  rw [h1]
  exact TTLCache.get_of_lookup_none { c with misses := c.misses + 1 } k t2 (by simpa using h)

/-- Witness for C8 (amended): getting an unknown key twice from a one-entry
cache returns absent both times and only bumps the miss counter. -/
theorem C8_witness :
    lookupKey "other" ((TTLCache.empty Nat 10 1000).set "k" 42 none 0).entries = none ∧
    (((TTLCache.empty Nat 10 1000).set "k" 42 none 0).get "other" 3).1 = none ∧
    ((((TTLCache.empty Nat 10 1000).set "k" 42 none 0).get "other" 3).2.get "other" 4)
      = (none, { ((TTLCache.empty Nat 10 1000).set "k" 42 none 0) with misses := 2 }) := by
  have h := C8_get_unknown_key_idempotent ((TTLCache.empty Nat 10 1000).set "k" 42 none 0)
    "other" 3 4 (by decide)
  refine ⟨by decide, ?_, ?_⟩
  · rw [h.1]
  · rw [h.2]
    decide

/-! ## Capacity / recency invariant (C2) and eviction tie-break (C9) -/

/-- C2 counterexample: with capacity 2, store `a` (ttl 1000) and `b` (ttl 1)
at time 0, then store `c` at time 2.  At time 2 the key `b` is expired but
still physically occupies a capacity/recency slot, so the insertion of `c`
evicts the *unexpired* LRU entry `a`.  The retained (logically present) keys
are then `{c}` alone, while the at-most-2 most-recently-touched unexpired
keys are `{c, a}` — the claim's invariant fails on the code. -/
theorem C2_counterexample_expired_entry_distorts_lru :
    (runOps (TTLCache.empty Nat 2 60000)
        [CacheOp.setOp "a" 1 (some 1000) 0, CacheOp.setOp "b" 2 (some 1) 0,
         CacheOp.setOp "c" 3 none 2]).entries.map Prod.fst = ["c", "b"] ∧
    lookupKey "a" (runOps (TTLCache.empty Nat 2 60000)
        [CacheOp.setOp "a" 1 (some 1000) 0, CacheOp.setOp "b" 2 (some 1) 0,
         CacheOp.setOp "c" 3 none 2]).entries = none ∧
    ((2 : Int) < 0 + 1000) ∧
    (runOps (TTLCache.empty Nat 2 60000)
        [CacheOp.setOp "a" 1 (some 1000) 0, CacheOp.setOp "b" 2 (some 1) 0,
         CacheOp.setOp "c" 3 none 2]).logicalLookup "b" 2 = none ∧
    lookupKey "b" (runOps (TTLCache.empty Nat 2 60000)
        [CacheOp.setOp "a" 1 (some 1000) 0, CacheOp.setOp "b" 2 (some 1) 0,
         CacheOp.setOp "c" 3 none 2]).entries = some ⟨2, 1⟩ := by
  refine ⟨?_, ?_, ?_, ?_, ?_⟩ <;> decide

/-- C2 amended: for every sequence of `set`/`get` operations on a cache of
capacity `C` starting empty, *provided no stored entry is expired at the
time of any operation*, after every operation the number of stored entries
is at most `C` and the stored keys (most recent first) are exactly the
abstract most-recently-touched key order truncated to `C` — in particular an
insertion of a new key beyond capacity evicts the least-recently-used entry
before the call returns. -/
theorem C2_capacity_and_recency {α : Type} (C : Nat) (ttl : Int)
    (ops : List (CacheOp α))
    (h : expiryFreeRun (TTLCache.empty α C ttl) ops = true) :
    ∀ n : Nat,
      ((runOps (TTLCache.empty α C ttl) (ops.take n)).entries.map Prod.fst
        = absRun C [] (ops.take n)) ∧
      (runOps (TTLCache.empty α C ttl) (ops.take n)).entries.length ≤ C := by
  intro n
  have hfree := expiryFree_take ops (TTLCache.empty α C ttl) n h
  have hweak := getsUnexpired_of_expiryFree (ops.take n) (TTLCache.empty α C ttl) hfree
  have hmain := runOps_keys (ops.take n) (TTLCache.empty α C ttl)
    (by simp [TTLCache.empty]) (by simp [TTLCache.empty]) hweak
  refine ⟨?_, ?_⟩
  · have h1 := hmain.1
    simpa [TTLCache.empty] using h1
  · have h2 := hmain.2.2.1
    simpa [TTLCache.empty] using h2

/-- Witness for C2 (amended): capacity 1, operations
`set a; get a; set b` — all unexpired; after the run the retained keys are
exactly `["b"]`, matching the abstract most-recently-touched order, and the
size bound holds. -/
theorem C2_witness :
    expiryFreeRun (TTLCache.empty Nat 1 1000)
      [CacheOp.setOp "a" 1 none 0, CacheOp.getOp "a" 1, CacheOp.setOp "b" 2 none 2]
      = true ∧
    absRun 1 []
      (([CacheOp.setOp "a" 1 none 0, CacheOp.getOp "a" 1,
         CacheOp.setOp "b" 2 none 2] : List (CacheOp Nat)).take 3) = ["b"] ∧
    (runOps (TTLCache.empty Nat 1 1000)
      (([CacheOp.setOp "a" 1 none 0, CacheOp.getOp "a" 1,
         CacheOp.setOp "b" 2 none 2] : List (CacheOp Nat)).take 3)).entries.map Prod.fst
      = ["b"] ∧
    (runOps (TTLCache.empty Nat 1 1000)
      (([CacheOp.setOp "a" 1 none 0, CacheOp.getOp "a" 1,
         CacheOp.setOp "b" 2 none 2] : List (CacheOp Nat)).take 3)).entries.length ≤ 1 := by
  have h := C2_capacity_and_recency 1 1000
    [CacheOp.setOp "a" 1 none 0, CacheOp.getOp "a" 1, CacheOp.setOp "b" 2 none 2]
    (by decide) 3
  exact ⟨by decide, by decide, h.1.trans (by decide), h.2⟩

/-- C9: inserting `C + 1` distinct keys into an empty cache of capacity `C`,
with no intervening reads, evicts exactly the first-inserted key: the final
store holds the other `C` keys in most-recent-first order, the first key is
absent, and every later key is present. -/
theorem C9_capacity_plus_one_inserts_evict_first {α : Type} (C : Nat)
    (ttlCache : Int) (ttl : Option Int) (t : Int) (kvs : List (String × α))
    (hnd : (kvs.map Prod.fst).Nodup) (hlen : kvs.length = C + 1) :
    ((runOps (TTLCache.empty α C ttlCache)
        (kvs.map (fun p => CacheOp.setOp p.1 p.2 ttl t))).entries.map Prod.fst
      = (kvs.map Prod.fst).tail.reverse) ∧
    lookupKey ((kvs.map Prod.fst).headI)
        (runOps (TTLCache.empty α C ttlCache)
          (kvs.map (fun p => CacheOp.setOp p.1 p.2 ttl t))).entries = none ∧
    ∀ k ∈ (kvs.map Prod.fst).tail,
      lookupKey k (runOps (TTLCache.empty α C ttlCache)
        (kvs.map (fun p => CacheOp.setOp p.1 p.2 ttl t))).entries ≠ none := by
  have hrun := runOps_keys (kvs.map (fun p => CacheOp.setOp p.1 p.2 ttl t))
    (TTLCache.empty α C ttlCache) (by simp [TTLCache.empty]) (by simp [TTLCache.empty])
    (getsUnexpired_setsOps kvs ttl t _)
  have habs := absRun_setsOps C ttl t kvs [] hnd (by simp) (by simp)
  have hkeys : (runOps (TTLCache.empty α C ttlCache)
      (kvs.map (fun p => CacheOp.setOp p.1 p.2 ttl t))).entries.map Prod.fst
      = (kvs.map Prod.fst).tail.reverse := by
    have h1 := hrun.1
    simp only [TTLCache.empty, List.map_nil] at h1
    rw [habs] at h1
    have h2 : List.take C ((kvs.map Prod.fst).reverse ++ ([] : List String))
        = (kvs.map Prod.fst).tail.reverse := by
      rw [List.append_nil]
      exact reverse_take_of_length_succ _ C (by simpa using hlen)
    rw [h2] at h1
    exact h1
  refine ⟨hkeys, ?_, ?_⟩
  · rw [lookupKey_eq_none_iff, hkeys]
    cases kvs with
    | nil => simp at hlen
    | cons p rest =>
      rw [List.map_cons] at hnd ⊢
      have hnp : p.1 ∉ rest.map Prod.fst := (List.nodup_cons.mp hnd).1
      simpa using hnp
  · intro k hk
    rw [Ne, lookupKey_eq_none_iff, hkeys]
    simp [hk]

/-- Witness for C9: capacity 2, inserting `a`, `b`, `c` in order leaves
exactly `["c", "b"]` (MRU first) — the first-inserted key `a` was evicted. -/
theorem C9_witness :
    ((["a", "b", "c"] : List String).Nodup ∧
      ([("a", 1), ("b", 2), ("c", 3)] : List (String × Nat)).length = 2 + 1) ∧
    (runOps (TTLCache.empty Nat 2 1000)
        (([("a", 1), ("b", 2), ("c", 3)] : List (String × Nat)).map
          (fun p => CacheOp.setOp p.1 p.2 none 0))).entries.map Prod.fst
      = ["c", "b"] ∧
    lookupKey "a" (runOps (TTLCache.empty Nat 2 1000)
        (([("a", 1), ("b", 2), ("c", 3)] : List (String × Nat)).map
          (fun p => CacheOp.setOp p.1 p.2 none 0))).entries = none := by
  have h := C9_capacity_plus_one_inserts_evict_first 2 1000 none 0
    ([("a", 1), ("b", 2), ("c", 3)] : List (String × Nat)) (by decide) (by decide)
  refine ⟨⟨by decide, by decide⟩, h.1.trans (by decide), ?_⟩
  have h2 := h.2.1
  simpa using h2

/-! ## Cache-key derivation (C6) -/

theorem string_data_inj (a b : String) (h : a.data = b.data) : a = b := by
  cases a
  cases b
  simp at h
  rw [h]

theorem strAppend_left_cancel (a x y : String) (h : a ++ x = a ++ y) : x = y := by
  apply string_data_inj
  have hd := congrArg String.data h
  rw [String.data_append, String.data_append] at hd
  exact List.append_cancel_left hd

theorem strAppend_right_cancel (x y s : String) (h : x ++ s = y ++ s) : x = y := by
  apply string_data_inj
  have hd := congrArg String.data h
  rw [String.data_append, String.data_append] at hd
  exact List.append_cancel_right hd

theorem strAppend_assoc (a b c : String) : a ++ b ++ c = a ++ (b ++ c) := by
  apply string_data_inj
  rw [String.data_append, String.data_append, String.data_append, String.data_append]
  exact List.append_assoc _ _ _

theorem colon_data : (":" : String).data = [':'] := rfl

theorem empty_string_data : ("" : String).data = [] := rfl

/-- Splitting a character list at the first occurrence of a marker character
that occurs in neither prefix is unambiguous. -/
theorem append_cons_eq_of_not_mem (c : Char) :
    ∀ (xs1 xs2 ys1 ys2 : List Char), c ∉ xs1 → c ∉ xs2 →
      xs1 ++ c :: ys1 = xs2 ++ c :: ys2 → xs1 = xs2 ∧ ys1 = ys2 := by
  intro xs1
  induction xs1 with
  | nil =>
    intro xs2 ys1 ys2 h1 h2 h
    cases xs2 with
    | nil => simpa using h
    | cons x2 t2 =>
      rw [List.nil_append, List.cons_append] at h
      injection h with hc ht
      exact absurd (List.mem_cons.mpr (Or.inl hc)) h2
  | cons x1 t1 ih =>
    intro xs2 ys1 ys2 h1 h2 h
    cases xs2 with
    | nil =>
      rw [List.cons_append, List.nil_append] at h
      injection h with hx ht
      exact absurd (List.mem_cons.mpr (Or.inl hx.symm)) h1
    | cons x2 t2 =>
      rw [List.cons_append, List.cons_append] at h
      injection h with hx ht
      have h1' : c ∉ t1 := fun hh => h1 (List.mem_cons_of_mem _ hh)
      have h2' : c ∉ t2 := fun hh => h2 (List.mem_cons_of_mem _ hh)
      obtain ⟨he, hy⟩ := ih t2 ys1 ys2 h1' h2' ht
      exact ⟨by rw [hx, he], hy⟩

/-- The key regrouped as prefix `method:pathsearch` and suffix
`:authHash bodyKey` (pure reassociation of the concatenation). -/
theorem cacheKeyOf_group (sha : String → String) (upstreamKey m p q a b : String) :
    cacheKeyOf sha upstreamKey m p q a b
      = (m ++ ":" ++ p ++ q)
          ++ (":" ++ authFingerprintPart sha upstreamKey a ++ bodyKeyPart sha m b) := by
  apply string_data_inj
  simp only [cacheKeyOf, String.data_append, List.append_assoc]

/-- The character list of the key starts with the method followed by the
first colon. -/
theorem cacheKeyOf_data_cons (sha : String → String) (upstreamKey m p q a b : String) :
    (cacheKeyOf sha upstreamKey m p q a b).data
      = m.data ++ ':' :: (p.data ++ (q.data ++ ':' ::
          ((authFingerprintPart sha upstreamKey a).data
            ++ (bodyKeyPart sha m b).data))) := by
  simp only [cacheKeyOf, String.data_append, List.append_assoc, colon_data,
    List.singleton_append, List.cons_append, List.nil_append]

/-- C6 counterexample, two failing cases of the claim as stated.
First: `HEAD` is an idempotent read method, but the body component of the
key is empty only for `GET`; for `HEAD` it is a colon followed by the
content hash of the raw body (shown with a concrete stand-in for the
external hash).  Second: the claim's "two tuples differing in any byte
derive different keys except with cryptographically negligible probability"
fails deterministically on the credential component: `server.js` 153 maps
an absent credential and a presented credential equal to the configured
`UPSTREAM_API_KEY` to the same `auth:` fingerprint, so the two
credential-differing tuples below derive the identical key with
probability 1. -/
theorem C6_counterexample_head_body_and_credential_aliasing :
    bodyKeyPart (fun s => s) "HEAD" "xyz" = ":xyz" ∧
    bodyKeyPart (fun s => s) "HEAD" "xyz" ≠ "" ∧
    bodyKeyPart (fun s => s) "GET" "xyz" = "" ∧
    ("" : String) ≠ "KEY" ∧
    cacheKeyOf (fun s => s) "KEY" "POST" "/v1/chat" "" "" "b"
      = cacheKeyOf (fun s => s) "KEY" "POST" "/v1/chat" "" "KEY" "b" := by
  refine ⟨rfl, by decide, rfl, by decide, by decide⟩

/-- C6 amended: cache-key derivation is a deterministic function of
(method, path, query, credential, body): byte-identical tuples derive
identical keys, and tuples differing in a single component derive different
keys in the following senses, each matching the code:
* differing methods (HTTP methods contain no colon) derive different keys,
  whatever the other components are;
* with the other components fixed, differing (path, query) pairs derive
  different keys, under URL well-formedness (a path contains no `?`, a query
  is empty or starts with `?`);
* with the other components fixed, two *presented* credentials whose
  truncated hashes differ derive different keys — but an absent credential
  is aliased to the configured upstream credential (counterexample above),
  so credential injectivity necessarily excludes that aliasing;
* for any non-`GET` method, two bodies whose content hashes differ derive
  different keys (collision-freeness of the external SHA-256 standing in
  for "except with cryptographically negligible probability");
* and the body component of the key is empty exactly for `GET` — not for
  the other idempotent read methods such as `HEAD`. -/
theorem C6_cache_key_derivation (sha : String → String) (upstreamKey m p q a : String) :
    (∀ m2 p2 q2 a2 b b2, m = m2 → p = p2 → q = q2 → a = a2 → b = b2 →
        cacheKeyOf sha upstreamKey m p q a b = cacheKeyOf sha upstreamKey m2 p2 q2 a2 b2) ∧
    (∀ b1 b2, m ≠ "GET" → sha b1 ≠ sha b2 →
        cacheKeyOf sha upstreamKey m p q a b1 ≠ cacheKeyOf sha upstreamKey m p q a b2) ∧
    (∀ b, bodyKeyPart sha m b = "" ↔ m = "GET") ∧
    (∀ m2 p2 q2 a2 b b2, m ≠ m2 → ':' ∉ m.data → ':' ∉ m2.data →
        cacheKeyOf sha upstreamKey m p q a b ≠ cacheKeyOf sha upstreamKey m2 p2 q2 a2 b2) ∧
    (∀ p2 q2 b, '?' ∉ p.data → '?' ∉ p2.data →
        (q = "" ∨ ∃ t, q.data = '?' :: t) → (q2 = "" ∨ ∃ t, q2.data = '?' :: t) →
        (p, q) ≠ (p2, q2) →
        cacheKeyOf sha upstreamKey m p q a b ≠ cacheKeyOf sha upstreamKey m p2 q2 a b) ∧
    (∀ a2 b, a ≠ "" → a2 ≠ "" → hashString sha a ≠ hashString sha a2 →
        cacheKeyOf sha upstreamKey m p q a b ≠ cacheKeyOf sha upstreamKey m p q a2 b) := by
  refine ⟨?_, ?_, ?_, ?_, ?_, ?_⟩
  · intro m2 p2 q2 a2 b b2 h1 h2 h3 h4 h5
    subst h1
    subst h2
    subst h3
    subst h4
    subst h5
    rfl
  · intro b1 b2 hm hb hk
    unfold cacheKeyOf bodyKeyPart at hk
    rw [if_neg hm, if_neg hm] at hk
    have h1 := strAppend_left_cancel _ _ _ hk
    have h2 := strAppend_left_cancel ":" _ _ h1
    exact hb h2
  · intro b
    constructor
    · intro h
      by_contra hm
      unfold bodyKeyPart at h
      rw [if_neg hm] at h
      have hd := congrArg String.data h
      simp [String.data_append] at hd
    · intro h
      simp [bodyKeyPart, h]
  · intro m2 p2 q2 a2 b b2 hm hc1 hc2 hkeq
    have hd := congrArg String.data hkeq
    rw [cacheKeyOf_data_cons, cacheKeyOf_data_cons] at hd
    exact hm (string_data_inj _ _ (append_cons_eq_of_not_mem ':' _ _ _ _ hc1 hc2 hd).1)
  · intro p2 q2 b hp1 hp2 hq1 hq2 hne hkeq
    rw [cacheKeyOf_group, cacheKeyOf_group] at hkeq
    have h1 := strAppend_right_cancel _ _ _ hkeq
    rw [strAppend_assoc (m ++ ":") p q, strAppend_assoc (m ++ ":") p2 q2] at h1
    have h2 := strAppend_left_cancel _ _ _ h1
    have hd := congrArg String.data h2
    rw [String.data_append, String.data_append] at hd
    rcases hq1 with hq1e | ⟨t1, ht1⟩
    · rcases hq2 with hq2e | ⟨t2, ht2⟩
      · subst hq1e
        subst hq2e
        rw [empty_string_data, List.append_nil, List.append_nil] at hd
        exact hne (by rw [string_data_inj _ _ hd])
      · subst hq1e
        rw [empty_string_data, List.append_nil, ht2] at hd
        exact hp1 (by rw [hd]; exact List.mem_append_right _ (List.mem_cons_self _ _))
    · rcases hq2 with hq2e | ⟨t2, ht2⟩
      · subst hq2e
        rw [empty_string_data, List.append_nil, ht1] at hd
        exact hp2 (by rw [← hd]; exact List.mem_append_right _ (List.mem_cons_self _ _))
      · rw [ht1, ht2] at hd
        obtain ⟨hpe, hte⟩ := append_cons_eq_of_not_mem '?' _ _ _ _ hp1 hp2 hd
        have hpp : p = p2 := string_data_inj _ _ hpe
        have hqq : q = q2 := string_data_inj _ _ (by rw [ht1, ht2, hte])
        exact hne (by rw [hpp, hqq])
  · intro a2 b ha ha2 hh hkeq
    rw [cacheKeyOf_group, cacheKeyOf_group] at hkeq
    have h1 := strAppend_left_cancel _ _ _ hkeq
    have h2 := strAppend_right_cancel _ _ _ h1
    have h3 := strAppend_left_cancel ":" _ _ h2
    have hba : (a != "") = true := by simpa using ha
    have hba2 : (a2 != "") = true := by simpa using ha2
    unfold authFingerprintPart at h3
    rw [if_pos hba, if_pos hba2] at h3
    exact hh (strAppend_left_cancel "auth:" _ _ h3)

/-- Witness for C6: with concrete inputs, a body change under `POST` flips
the key (hashes differ), a method change (`POST` vs `PUT`) flips the key,
and two presented credentials with different hashes flip the key. -/
theorem C6_witness :
    (("POST" : String) ≠ "GET" ∧
      (fun s : String => s) "x" ≠ (fun s : String => s) "y" ∧
      cacheKeyOf (fun s => s) "" "POST" "/v1/chat" "" "tokenA" "x"
        ≠ cacheKeyOf (fun s => s) "" "POST" "/v1/chat" "" "tokenA" "y") ∧
    (("POST" : String) ≠ "PUT" ∧
      cacheKeyOf (fun s => s) "" "POST" "/v1/chat" "" "tokenA" "x"
        ≠ cacheKeyOf (fun s => s) "" "PUT" "/v1/chat" "" "tokenA" "x") ∧
    (("tokenA" : String) ≠ "" ∧ ("tokenB" : String) ≠ "" ∧
      hashString (fun s : String => s) "tokenA" ≠ hashString (fun s : String => s) "tokenB" ∧
      cacheKeyOf (fun s => s) "" "POST" "/v1/chat" "" "tokenA" "x"
        ≠ cacheKeyOf (fun s => s) "" "POST" "/v1/chat" "" "tokenB" "x") := by
  refine ⟨⟨by decide, by decide, ?_⟩, ⟨by decide, ?_⟩, ⟨by decide, by decide, by decide, ?_⟩⟩
  · exact (C6_cache_key_derivation (fun s => s) "" "POST" "/v1/chat" "" "tokenA").2.1 "x" "y"
      (by decide) (by decide)
  · exact (C6_cache_key_derivation (fun s => s) "" "POST" "/v1/chat" "" "tokenA").2.2.2.1
      "PUT" "/v1/chat" "" "tokenA" "x" "x" (by decide) (by decide) (by decide)
  · exact (C6_cache_key_derivation (fun s => s) "" "POST" "/v1/chat" "" "tokenA").2.2.2.2.2
      "tokenB" "x" (by decide) (by decide) (by decide)

/-! ## Pipeline characterizations -/

theorem handleProxyRequest_of_bypass (sha : String → String)
    (jsonParse : String → Option JVal) (cfg : GatewayConfig)
    (cache0 : TTLCache CachedResponse) (ctr0 : Counters) (req : ProxyRequest)
    (outcome : UpstreamOutcome) (nowLookup nowStore : Int)
    (hbp : requestBypass jsonParse req = true) :
    handleProxyRequest sha jsonParse cfg cache0 ctr0 req outcome nowLookup nowStore
      = forwardAndRespond cfg req outcome (requestKey sha cfg req)
          (if parseBoolean req.xCacheInvalidate false then "bypass-invalidate" else "bypass")
          true cache0 { ctr0 with cache_bypass := ctr0.cache_bypass + 1 } false nowStore := by
  simp only [handleProxyRequest, hbp, if_true]

theorem handleProxyRequest_of_miss (sha : String → String)
    (jsonParse : String → Option JVal) (cfg : GatewayConfig)
    (cache0 cache1 : TTLCache CachedResponse) (ctr0 : Counters) (req : ProxyRequest)
    (outcome : UpstreamOutcome) (nowLookup nowStore : Int)
    (hbp : requestBypass jsonParse req = false)
    (hres : cache0.get (requestKey sha cfg req) nowLookup = (none, cache1)) :
    handleProxyRequest sha jsonParse cfg cache0 ctr0 req outcome nowLookup nowStore
      = forwardAndRespond cfg req outcome (requestKey sha cfg req) "miss" false cache1
          { ctr0 with cache_misses := ctr0.cache_misses + 1 } true nowStore := by
  simp only [handleProxyRequest, hbp, hres, Bool.false_eq_true, if_false]

theorem handleProxyRequest_of_hit (sha : String → String)
    (jsonParse : String → Option JVal) (cfg : GatewayConfig)
    (cache0 cache1 : TTLCache CachedResponse) (ctr0 : Counters) (req : ProxyRequest)
    (outcome : UpstreamOutcome) (nowLookup nowStore : Int) (v : CachedResponse)
    (hbp : requestBypass jsonParse req = false)
    (hres : cache0.get (requestKey sha cfg req) nowLookup = (some v, cache1)) :
    handleProxyRequest sha jsonParse cfg cache0 ctr0 req outcome nowLookup nowStore
      = { status := v.status, xCache := "hit", cache := cache1,
          counters := { ctr0 with cache_hits := ctr0.cache_hits + 1 },
          upstreamCalls := 0, cacheLookedUp := true, cacheStored := false } := by
  simp only [handleProxyRequest, hbp, hres, Bool.false_eq_true, if_false]

/-! ## Bypass and error-path claims (C4, C5, C10) -/

/-- C10: for every request carrying the cache-invalidation signal the
pipeline neither reads nor writes the cache: no lookup is performed, the
upstream response is not stored, and the cache state — including any
existing entry under the request's derived key — is returned exactly as it
came in; the `x-cache` tag records `bypass-invalidate`. -/
theorem C10_invalidation_only_bypasses (sha : String → String)
    (jsonParse : String → Option JVal) (cfg : GatewayConfig)
    (cache0 : TTLCache CachedResponse) (ctr0 : Counters) (req : ProxyRequest)
    (outcome : UpstreamOutcome) (nowLookup nowStore : Int)
    (hinv : parseBoolean req.xCacheInvalidate false = true) :
    (handleProxyRequest sha jsonParse cfg cache0 ctr0 req outcome nowLookup nowStore).cache
        = cache0 ∧
    (handleProxyRequest sha jsonParse cfg cache0 ctr0 req outcome nowLookup
        nowStore).cacheLookedUp = false ∧
    (handleProxyRequest sha jsonParse cfg cache0 ctr0 req outcome nowLookup
        nowStore).cacheStored = false ∧
    (handleProxyRequest sha jsonParse cfg cache0 ctr0 req outcome nowLookup
        nowStore).xCache = "bypass-invalidate" := by
  have hbp : requestBypass jsonParse req = true := by
    simp [requestBypass, hinv]
  rw [handleProxyRequest_of_bypass sha jsonParse cfg cache0 ctr0 req outcome
    nowLookup nowStore hbp]
  cases outcome with
  | fetchError => simp [forwardAndRespond, hinv]
  | ok s hs b => simp [forwardAndRespond, hinv]

/-- Witness for C10: a request with `x-cache-invalidate: 1` against a
one-entry cache: nothing is read or written and the entry survives. -/
theorem C10_witness :
    parseBoolean (some "1") false = true ∧
    (handleProxyRequest (fun s => s) (fun _ => none) ⟨"", true⟩
        ((TTLCache.empty CachedResponse 10 1000).set "kk" ⟨200, [], "old"⟩ none 0)
        ⟨0, 0, 0, 0, 0⟩
        ⟨"POST", "/v1/chat", "", "application/json", some "1", "", "body"⟩
        (UpstreamOutcome.ok 200 [] "resp") 1 1).cache
      = ((TTLCache.empty CachedResponse 10 1000).set "kk" ⟨200, [], "old"⟩ none 0) ∧
    (handleProxyRequest (fun s => s) (fun _ => none) ⟨"", true⟩
        ((TTLCache.empty CachedResponse 10 1000).set "kk" ⟨200, [], "old"⟩ none 0)
        ⟨0, 0, 0, 0, 0⟩
        ⟨"POST", "/v1/chat", "", "application/json", some "1", "", "body"⟩
        (UpstreamOutcome.ok 200 [] "resp") 1 1).cacheLookedUp = false ∧
    (handleProxyRequest (fun s => s) (fun _ => none) ⟨"", true⟩
        ((TTLCache.empty CachedResponse 10 1000).set "kk" ⟨200, [], "old"⟩ none 0)
        ⟨0, 0, 0, 0, 0⟩
        ⟨"POST", "/v1/chat", "", "application/json", some "1", "", "body"⟩
        (UpstreamOutcome.ok 200 [] "resp") 1 1).cacheStored = false := by
  have h := C10_invalidation_only_bypasses (fun s => s) (fun _ => none) ⟨"", true⟩
    ((TTLCache.empty CachedResponse 10 1000).set "kk" ⟨200, [], "old"⟩ none 0)
    ⟨0, 0, 0, 0, 0⟩
    ⟨"POST", "/v1/chat", "", "application/json", some "1", "", "body"⟩
    (UpstreamOutcome.ok 200 [] "resp") 1 1 (by decide)
  exact ⟨by decide, h.1, h.2.1, h.2.2.1⟩

/-- C4 counterexample, two failing cases of the claim as stated.
First: a `POST` whose JSON body carries the *truthy* streaming indicator
`stream: 1` is **not** bypassed (`isLikelyStream` requires
`stream === true`) and its successful response *is* stored in the cache.
Second: a `POST` whose body is the JSON text for `stream: true` — it
strictly declares itself streaming — but sent under a `text/plain` content
type is never parsed (`server.js` 145-146), is not bypassed, and its
successful response *is* stored as well.  So both the "truthy indicator"
reading and the non-JSON-content-type case refute "always forwarded and
never cached". -/
theorem C4_counterexample_stream_requests_still_cached :
    jsTruthy (JVal.num 1) = true ∧
    (handleProxyRequest (fun s => s)
        (fun s => if s = "sb1" then some (JVal.obj [("stream", JVal.num 1)])
                  else if s = "sb2" then some (JVal.obj [("stream", JVal.bool true)]) else none)
        ⟨"", true⟩ (TTLCache.empty CachedResponse 10 1000) ⟨0, 0, 0, 0, 0⟩
        ⟨"POST", "/v1/chat", "", "application/json", none, "", "sb1"⟩
        (UpstreamOutcome.ok 200 [] "resp") 0 0).cacheStored = true ∧
    (fun s => if s = "sb1" then some (JVal.obj [("stream", JVal.num 1)])
              else if s = "sb2" then some (JVal.obj [("stream", JVal.bool true)]) else none) "sb2"
      = some (JVal.obj [("stream", JVal.bool true)]) ∧
    isLikelyStream (JVal.obj [("stream", JVal.bool true)]) = true ∧
    (handleProxyRequest (fun s => s)
        (fun s => if s = "sb1" then some (JVal.obj [("stream", JVal.num 1)])
                  else if s = "sb2" then some (JVal.obj [("stream", JVal.bool true)]) else none)
        ⟨"", true⟩ (TTLCache.empty CachedResponse 10 1000) ⟨0, 0, 0, 0, 0⟩
        ⟨"POST", "/v1/chat", "", "text/plain", none, "", "sb2"⟩
        (UpstreamOutcome.ok 200 [] "resp") 0 0).cacheStored = true := by
  refine ⟨rfl, ?_, by simp, rfl, ?_⟩ <;> decide

/-- C4 amended: for every request with a JSON content type whose body parses
and whose parsed body is an object with `stream` strictly equal to boolean
`true`, the request is always forwarded to the upstream and its response is
never stored in the cache (the cache is returned untouched), regardless of
the configured path/method caching policy and of the invalidation header. -/
theorem C4_stream_true_always_forwarded_never_cached (sha : String → String)
    (jsonParse : String → Option JVal) (cfg : GatewayConfig)
    (cache0 : TTLCache CachedResponse) (ctr0 : Counters) (req : ProxyRequest)
    (outcome : UpstreamOutcome) (nowLookup nowStore : Int) (j : JVal)
    (hct : strIncludes req.contentType "application/json" = true)
    (hp : jsonParse req.rawBody = some j)
    (hstream : isLikelyStream j = true) :
    (handleProxyRequest sha jsonParse cfg cache0 ctr0 req outcome nowLookup
        nowStore).upstreamCalls = 1 ∧
    (handleProxyRequest sha jsonParse cfg cache0 ctr0 req outcome nowLookup
        nowStore).cacheStored = false ∧
    (handleProxyRequest sha jsonParse cfg cache0 ctr0 req outcome nowLookup
        nowStore).cache = cache0 := by
  have hbp : requestBypass jsonParse req = true := by
    simp [requestBypass, requestStreamFlag, hct, hp, hstream]
  rw [handleProxyRequest_of_bypass sha jsonParse cfg cache0 ctr0 req outcome
    nowLookup nowStore hbp]
  cases outcome with
  | fetchError => simp [forwardAndRespond]
  | ok s hs b => simp [forwardAndRespond]

/-- Witness for C4 (amended): a `POST` to a cacheable path with JSON body
`stream: true` and a successful upstream response is forwarded once and
stores nothing. -/
theorem C4_witness :
    strIncludes "application/json" "application/json" = true ∧
    (fun s => if s = "sb" then some (JVal.obj [("stream", JVal.bool true)]) else none) "sb"
      = some (JVal.obj [("stream", JVal.bool true)]) ∧
    isLikelyStream (JVal.obj [("stream", JVal.bool true)]) = true ∧
    (handleProxyRequest (fun s => s)
        (fun s => if s = "sb" then some (JVal.obj [("stream", JVal.bool true)]) else none)
        ⟨"", true⟩ (TTLCache.empty CachedResponse 10 1000) ⟨0, 0, 0, 0, 0⟩
        ⟨"POST", "/v1/chat", "", "application/json", none, "", "sb"⟩
        (UpstreamOutcome.ok 200 [] "resp") 0 0).upstreamCalls = 1 ∧
    (handleProxyRequest (fun s => s)
        (fun s => if s = "sb" then some (JVal.obj [("stream", JVal.bool true)]) else none)
        ⟨"", true⟩ (TTLCache.empty CachedResponse 10 1000) ⟨0, 0, 0, 0, 0⟩
        ⟨"POST", "/v1/chat", "", "application/json", none, "", "sb"⟩
        (UpstreamOutcome.ok 200 [] "resp") 0 0).cache
      = TTLCache.empty CachedResponse 10 1000 := by
  have h := C4_stream_true_always_forwarded_never_cached (fun s => s)
    (fun s => if s = "sb" then some (JVal.obj [("stream", JVal.bool true)]) else none)
    ⟨"", true⟩ (TTLCache.empty CachedResponse 10 1000) ⟨0, 0, 0, 0, 0⟩
    ⟨"POST", "/v1/chat", "", "application/json", none, "", "sb"⟩
    (UpstreamOutcome.ok 200 [] "resp") 0 0 (JVal.obj [("stream", JVal.bool true)])
    (by decide) (by simp) rfl
  exact ⟨by decide, by simp, rfl, h.1, h.2.2⟩

/-- C5: a forwarded request (one that actually reaches the upstream call)
whose `fetch` fails with a network error or timeout yields the gateway
error status 502, increments the upstream-error counter exactly once,
performs no retry (exactly one `fetch` attempt), stores nothing, and leaves
the logical cache contents unchanged (at the lookup time or later; the only
physical change a lookup can make is purging an already-expired — hence
logically absent — node). -/
theorem C5_upstream_error_surfaced_counted_not_cached (sha : String → String)
    (jsonParse : String → Option JVal) (cfg : GatewayConfig)
    (cache0 : TTLCache CachedResponse) (ctr0 : Counters) (req : ProxyRequest)
    (nowLookup nowStore : Int)
    (hfwd : (handleProxyRequest sha jsonParse cfg cache0 ctr0 req
        UpstreamOutcome.fetchError nowLookup nowStore).upstreamCalls = 1) :
    (handleProxyRequest sha jsonParse cfg cache0 ctr0 req UpstreamOutcome.fetchError
        nowLookup nowStore).status = 502 ∧
    (handleProxyRequest sha jsonParse cfg cache0 ctr0 req UpstreamOutcome.fetchError
        nowLookup nowStore).counters.upstream_errors = ctr0.upstream_errors + 1 ∧
    (handleProxyRequest sha jsonParse cfg cache0 ctr0 req UpstreamOutcome.fetchError
        nowLookup nowStore).cacheStored = false ∧
    ∀ (k : String) (t : Int), nowLookup ≤ t →
      (handleProxyRequest sha jsonParse cfg cache0 ctr0 req UpstreamOutcome.fetchError
          nowLookup nowStore).cache.logicalLookup k t = cache0.logicalLookup k t := by
  by_cases hbp : requestBypass jsonParse req = true
  · rw [handleProxyRequest_of_bypass sha jsonParse cfg cache0 ctr0 req
      UpstreamOutcome.fetchError nowLookup nowStore hbp]
    refine ⟨rfl, rfl, rfl, ?_⟩
    intro k t _
    rfl
  · have hbp' : requestBypass jsonParse req = false := by
      simpa using hbp
    rcases hres : cache0.get (requestKey sha cfg req) nowLookup with ⟨o, cache1⟩
    cases o with
    | some v =>
      rw [handleProxyRequest_of_hit sha jsonParse cfg cache0 cache1 ctr0 req
        UpstreamOutcome.fetchError nowLookup nowStore v hbp' hres] at hfwd
      simp at hfwd
    | none =>
      rw [handleProxyRequest_of_miss sha jsonParse cfg cache0 cache1 ctr0 req
        UpstreamOutcome.fetchError nowLookup nowStore hbp' hres]
      refine ⟨rfl, rfl, rfl, ?_⟩
      intro k t ht
      have hc1 : cache1 = (cache0.get (requestKey sha cfg req) nowLookup).2 := by
        rw [hres]
      show cache1.logicalLookup k t = cache0.logicalLookup k t
      rw [hc1]
      exact logicalLookup_get_snd cache0 _ nowLookup k t ht

/-- Witness for C5: a miss followed by an upstream failure on an empty
cache: status 502, error counter 1, nothing stored, contents unchanged. -/
theorem C5_witness :
    (handleProxyRequest (fun s => s) (fun _ => none) ⟨"", true⟩
        (TTLCache.empty CachedResponse 10 1000) ⟨0, 0, 0, 0, 0⟩
        ⟨"POST", "/v1/chat", "", "", none, "", "b"⟩
        UpstreamOutcome.fetchError 0 0).upstreamCalls = 1 ∧
    (handleProxyRequest (fun s => s) (fun _ => none) ⟨"", true⟩
        (TTLCache.empty CachedResponse 10 1000) ⟨0, 0, 0, 0, 0⟩
        ⟨"POST", "/v1/chat", "", "", none, "", "b"⟩
        UpstreamOutcome.fetchError 0 0).status = 502 ∧
    (handleProxyRequest (fun s => s) (fun _ => none) ⟨"", true⟩
        (TTLCache.empty CachedResponse 10 1000) ⟨0, 0, 0, 0, 0⟩
        ⟨"POST", "/v1/chat", "", "", none, "", "b"⟩
        UpstreamOutcome.fetchError 0 0).counters.upstream_errors = 1 ∧
    (handleProxyRequest (fun s => s) (fun _ => none) ⟨"", true⟩
        (TTLCache.empty CachedResponse 10 1000) ⟨0, 0, 0, 0, 0⟩
        ⟨"POST", "/v1/chat", "", "", none, "", "b"⟩
        UpstreamOutcome.fetchError 0 0).cacheStored = false ∧
    (handleProxyRequest (fun s => s) (fun _ => none) ⟨"", true⟩
        (TTLCache.empty CachedResponse 10 1000) ⟨0, 0, 0, 0, 0⟩
        ⟨"POST", "/v1/chat", "", "", none, "", "b"⟩
        UpstreamOutcome.fetchError 0 0).cache.logicalLookup "z" 5
      = (TTLCache.empty CachedResponse 10 1000).logicalLookup "z" 5 := by
  have h := C5_upstream_error_surfaced_counted_not_cached (fun s => s) (fun _ => none)
    ⟨"", true⟩ (TTLCache.empty CachedResponse 10 1000) ⟨0, 0, 0, 0, 0⟩
    ⟨"POST", "/v1/chat", "", "", none, "", "b"⟩ 0 0 (by decide)
  exact ⟨by decide, h.1, h.2.1, h.2.2.1, h.2.2.2 "z" 5 (by decide)⟩
